import Mathlib

/-!
Shallow embedding of `glmhmm/glm.py` (class `GLM`): observation-probability
computation (`compObs`), the negative log-likelihood objective (`neglogli`),
the weight reconstruction and cached probabilities of `fit`, and the synthetic
data generator (`generate_data`).  NumPy float arrays are idealised as
real-valued matrices indexed by `Fin`; fallible Python calls are modelled
with `Except String`.  Random draws (`np.random.uniform`, `np.random.randint`,
`np.random.rand`) are modelled by explicit oracle streams of raw draws, with
the NumPy formulas `low + (high - low) * u` and `low + u % (high - low)`
applied to them.
-/

namespace GLM

/-- Models `np.round` to integer precision: round half to even (banker's
rounding), otherwise to the nearest integer. -/
noncomputable def npRoundHalfEven (x : ℝ) : ℤ :=
  if Int.fract x = 1 / 2 then (if Even ⌊x⌋ then ⌊x⌋ else ⌊x⌋ + 1) else round x

/-- Models `np.round(x, 2)`: round to two decimal places, half to even. -/
noncomputable def npRound2 (x : ℝ) : ℝ :=
  (npRoundHalfEven (x * 100) : ℝ) / 100

/-- Models `np.random.uniform(low, high)` applied to one raw draw
`u = random_sample() ∈ [0,1)`: NumPy computes `low + (high - low) * u`. -/
noncomputable def uniformNp (low high u : ℝ) : ℝ :=
  low + (high - low) * u

/-- Models `np.random.randint(low, high)` applied to one raw integer draw `u`:
the sampled value is `low` plus the draw reduced into `[0, high - low)`.
The caller must ensure `low < high` (otherwise NumPy raises `ValueError`). -/
def randintNp (low high u : ℤ) : ℤ :=
  low + u % (high - low)

/-- Python keyword binding for the optional `normalize` parameter of
`compObs`: binding any other keyword name raises `TypeError`. -/
def bindNormalizeKeyword (kw : String) (v : Bool) : Except String Bool :=
  if kw = "normalize" then Except.ok v
  else Except.error ("TypeError: compObs() got an unexpected keyword argument " ++ kw)

/-- The `TypeError` message produced by the call
`self.compObs(x, w, normailize=False)` on line 80 of `glm.py`
(the keyword is misspelled in the source). -/
def normailizeKwError : String :=
  "TypeError: compObs() got an unexpected keyword argument " ++ "normailize"

/-- `GLM.compObs` (lines 35-57): `phi = np.exp(x @ w)`; if `normalize`,
divide each row by its row sum. -/
noncomputable def compObs {n m c : ℕ} (x : Matrix (Fin n) (Fin m) ℝ)
    (w : Matrix (Fin m) (Fin c) ℝ) (normalize : Bool := true) :
    Matrix (Fin n) (Fin c) ℝ :=
  let phi : Matrix (Fin n) (Fin c) ℝ := fun i j => Real.exp ((x * w) i j)
  if normalize then (fun i j => phi i j / ∑ k, phi i k) else phi

/-- `GLM.neglogli` (lines 60-92).  The source calls
`self.compObs(x, w, normailize=False)` with a misspelled keyword, which in
Python raises `TypeError` before `compObs` runs; the remainder of the body
(normalisation constant, per-row log-likelihood, and the line-84 assertion,
modelled by the `if`) is translated as written but is unreachable.  The 1-D
weight-vector promotion (`w[:, np.newaxis]`) is handled by the 2-D typing of
`w` here, and the `self.ll` cache is identified with the returned value. -/
noncomputable def neglogli {n m c : ℕ} (x : Matrix (Fin n) (Fin m) ℝ)
    (w : Matrix (Fin m) (Fin c) ℝ) (y : Matrix (Fin n) (Fin c) ℝ) :
    Except String ℝ := do
  let nrm ← bindNormalizeKeyword "normailize" false
  let phi := compObs x w nrm
  let norm : Fin n → ℝ := fun i => ∑ j, phi i j
  let weightedObs : Fin n → ℝ := fun i => ∑ j, phi i j * y i j
  let log_pyx : Fin n → ℝ := fun i => Real.log (weightedObs i) - Real.log (norm i)
  if npRound2 (∑ j, ∑ i, phi i j / norm i) = 1 then
    pure (-∑ i, log_pyx i)
  else
    Except.error "AssertionError: Sum of normalized probabilities does not equal 1!"

/-- The value that the line-84 assertion of `neglogli` compares to `1`:
`np.sum(np.divide(phi.T, norm))` where `phi` is the unnormalized
observation-probability matrix that line 80 intends to compute and
`norm` is its vector of row sums. -/
noncomputable def probSumVal {n m c : ℕ} (x : Matrix (Fin n) (Fin m) ℝ)
    (w : Matrix (Fin m) (Fin c) ℝ) : ℝ :=
  ∑ j, ∑ i, compObs x w false i j / ∑ k, compObs x w false i k

/-- Row-major flat index of the free weight `(i, j)` (column `j ≥ 1`) inside
the flattened `m * (c - 1)` free-parameter block. -/
theorem w_new_index_lt {m c : ℕ} (i : Fin m) (j : Fin c) (hj : ¬ j.val = 0) :
    i.val * (c - 1) + (j.val - 1) < m * (c - 1) := by
  have hj2 : j.val - 1 < c - 1 := by have := j.isLt; omega
  have h1 : i.val * (c - 1) + (j.val - 1) < (i.val + 1) * (c - 1) := by
    have hsm : (i.val + 1) * (c - 1) = i.val * (c - 1) + (c - 1) := by ring
    omega
  have h2 : (i.val + 1) * (c - 1) ≤ m * (c - 1) :=
    Nat.mul_le_mul_right _ i.isLt
  omega

/-- Line 114 of `fit`:
`w_new = np.hstack((np.zeros((m, 1)), np.reshape(OptimizeResult.x, (m, c-1))))` —
the full weight matrix reconstructed from the flat vector returned by the
minimizer, with a zero column prepended (row-major reshape). -/
noncomputable def w_new {m c : ℕ} (optx : Fin (m * (c - 1)) → ℝ) :
    Matrix (Fin m) (Fin c) ℝ :=
  fun i j =>
    if hj : j.val = 0 then 0
    else optx ⟨i.val * (c - 1) + (j.val - 1), w_new_index_lt i j hj⟩

/-- Line 117 of `fit`: `self.phi = self.compObs(x, w)` — the probability
matrix cached and returned by `fit`.  Note that the source evaluates it at
the *initial* weight argument `w`, not at `w_new`. -/
noncomputable def fitPhi {n m c : ℕ} (x : Matrix (Fin n) (Fin m) ℝ)
    (w : Matrix (Fin m) (Fin c) ℝ) : Matrix (Fin n) (Fin c) ℝ :=
  compObs x w true

/-- Lines 150-151 of `generate_data`: `w = np.zeros((m, c))` with
`w[:, 1:] = np.random.uniform(wdist[0], high=wdist[1], size=(m, c-1))`;
`uw` is the stream of raw `[0,1)` draws behind the uniform sample. -/
noncomputable def gdRawW {m c : ℕ} (wdist : ℝ × ℝ) (uw : Fin m → Fin (c - 1) → ℝ) :
    Matrix (Fin m) (Fin c) ℝ :=
  fun i j =>
    if hj : j.val = 0 then 0
    else uniformNp wdist.1 wdist.2 (uw i ⟨j.val - 1, by have := j.isLt; omega⟩)

/-- Line 154 of `generate_data`:
`x = np.random.randint(xdist[0], high=xdist[1], size=(n, m))`;
`ux` is the stream of raw integer draws behind the sample. -/
def gdRawX {n m : ℕ} (xdist : ℤ × ℤ) (ux : Fin n → Fin m → ℤ) :
    Matrix (Fin n) (Fin m) ℤ :=
  fun i j => randintNp xdist.1 xdist.2 (ux i j)

/-- Line 158 of `generate_data`:
`x = np.hstack((np.ones_like(x[:, 1, np.newaxis]), x))` — a column of integer
ones prepended to `x`.  (The source builds the ones column from column 1 of
`x`, so it needs `m ≥ 2`; that guard lives in `generate_data`.) -/
def biasX {n m : ℕ} (x : Matrix (Fin n) (Fin m) ℤ) :
    Matrix (Fin n) (Fin (m + 1)) ℤ :=
  fun i j =>
    if hj : j.val = 0 then 1
    else x i ⟨j.val - 1, by have := j.isLt; omega⟩

/-- Line 159 of `generate_data`: prepend to `w` a bias row whose class-0
entry is zero and whose remaining entries are fresh uniform samples
(raw draws `ub`). -/
noncomputable def biasW {m c : ℕ} (wdist : ℝ × ℝ) (ub : Fin (c - 1) → ℝ)
    (w : Matrix (Fin m) (Fin c) ℝ) : Matrix (Fin (m + 1)) (Fin c) ℝ :=
  fun i j =>
    if hi : i.val = 0 then
      (if hj : j.val = 0 then 0
       else uniformNp wdist.1 wdist.2 (ub ⟨j.val - 1, by have := j.isLt; omega⟩))
    else w ⟨i.val - 1, by have := i.isLt; omega⟩ j

/-- Line 162 of `generate_data`: `phi = self.compObs(x, w)` — normalized
observation probabilities of the (integer) design matrix under `w`. -/
noncomputable def gdPhi {n k c : ℕ} (x : Matrix (Fin n) (Fin k) ℤ)
    (w : Matrix (Fin k) (Fin c) ℝ) : Matrix (Fin n) (Fin c) ℝ :=
  compObs (x.map fun a => (a : ℝ)) w true

/-- Line 165 of `generate_data`: `cumdist = phi.cumsum(axis=1)`. -/
noncomputable def cumdist {n c : ℕ} (phi : Matrix (Fin n) (Fin c) ℝ) :
    Matrix (Fin n) (Fin c) ℝ :=
  fun i j => ∑ k ∈ Finset.univ.filter (fun k : Fin c => k.val ≤ j.val), phi i k

/-- Models `np.argmax` of a boolean row: the first index where the predicate
holds, or index 0 when it holds nowhere. -/
noncomputable def npArgmaxBoolRow {c : ℕ} (hc : 0 < c) (p : Fin c → Prop)
    [DecidablePred p] : Fin c :=
  (Fin.find p).getD ⟨0, hc⟩

/-- Line 167 of `generate_data`: `obs = (undist < cumdist).argmax(axis=1)`,
where `undist` is one `np.random.rand` draw `ur i` per row. -/
noncomputable def gdObs {n c : ℕ} (hc : 0 < c) (phi : Matrix (Fin n) (Fin c) ℝ)
    (ur : Fin n → ℝ) : Fin n → Fin c :=
  fun i => npArgmaxBoolRow hc (fun j => ur i < cumdist phi i j)

/-- Lines 170-171 of `generate_data`: `y = np.zeros((n, c))` followed by
`y[np.arange(n), obs] = 1`. -/
noncomputable def gdY {n c : ℕ} (obs : Fin n → Fin c) :
    Matrix (Fin n) (Fin c) ℝ :=
  fun i j => if j = obs i then 1 else 0

/-- `GLM.generate_data` (lines 127-173) over explicit raw random draws
(`uw`, `ub` behind `np.random.uniform`, `ux` behind `np.random.randint`,
`ur` behind `np.random.rand`).  The error branches model the NumPy failures
of the source for degenerate dimensions or bounds: `c = 0` makes
`np.random.uniform(..., size=(m, -1))` raise; `xdist[1] ≤ xdist[0]` makes
`np.random.randint` raise; and with `bias` the source reads `x[:, 1]`, which
needs `m ≥ 2`. -/
noncomputable def generate_data (n m c : ℕ) (wdist : ℝ × ℝ) (xdist : ℤ × ℤ)
    (bias : Bool) (uw : Fin m → Fin (c - 1) → ℝ) (ux : Fin n → Fin m → ℤ)
    (ub : Fin (c - 1) → ℝ) (ur : Fin n → ℝ) :
    Except String (Matrix (Fin n) (Fin (bif bias then m + 1 else m)) ℤ ×
      Matrix (Fin (bif bias then m + 1 else m)) (Fin c) ℝ ×
      Matrix (Fin n) (Fin c) ℝ) :=
  match bias with
  | false =>
      if hc : 0 < c then
        if _hx : xdist.1 < xdist.2 then
          let x := gdRawX xdist ux
          let w := gdRawW wdist uw
          Except.ok (x, w, gdY (gdObs hc (gdPhi x w) ur))
        else Except.error "ValueError: low >= high"
      else Except.error "ValueError: negative dimensions are not allowed"
  | true =>
      if hc : 0 < c then
        if _hx : xdist.1 < xdist.2 then
          if _hm : 2 ≤ m then
            let x := biasX (gdRawX xdist ux)
            let w := biasW wdist ub (gdRawW wdist uw)
            Except.ok (x, w, gdY (gdObs hc (gdPhi x w) ur))
          else Except.error "IndexError: index 1 is out of bounds for axis 1"
        else Except.error "ValueError: low >= high"
      else Except.error "ValueError: negative dimensions are not allowed"

/-! Concrete instances used by the claim analyses. -/

/-- A 2x1 all-zero design matrix (two samples, one feature). -/
noncomputable def c2X : Matrix (Fin 2) (Fin 1) ℝ := fun _ _ => 0

/-- A 1x1 all-zero weight matrix. -/
noncomputable def c2W : Matrix (Fin 1) (Fin 1) ℝ := fun _ _ => 0

/-- On the all-zero instance the unnormalized observation probabilities are
all `exp 0 = 1`. -/
theorem c2_compObs_eq_one (i : Fin 2) (j : Fin 1) : compObs c2X c2W false i j = 1 := by
  simp [compObs, Matrix.mul_apply, c2X, c2W]

/-- `np.round(2.0, 2) = 2.0` in the half-to-even model. -/
theorem npRound2_two : npRound2 2 = 2 := by
  have h200 : (2 : ℝ) * 100 = ((200 : ℤ) : ℝ) := by norm_num
  unfold npRound2 npRoundHalfEven
  rw [h200, Int.fract_intCast, if_neg (by norm_num), round_intCast]
  norm_num

/-- Claim C1: `neglogli` never computes the negated sum of per-row
log-likelihoods — for every input it raises `TypeError`, because line 80
passes the misspelled keyword `normailize` to `compObs`. -/
theorem neglogli_raises_typeerror {n m c : ℕ} (x : Matrix (Fin n) (Fin m) ℝ)
    (w : Matrix (Fin m) (Fin c) ℝ) (y : Matrix (Fin n) (Fin c) ℝ) :
    neglogli x w y = Except.error normailizeKwError := rfl

/-- Claim C2: on a well-formed input with `n = 2` rows (each normalized row
sums to 1, first conjunct), the value compared by the line-84 assertion is
the number of rows, `2`, and rounding it to two decimals does not give `1` —
so the assertion would fire on this well-formed input. -/
theorem neglogli_probsum_check_fires_on_two_rows :
    (∀ i : Fin 2, (∑ j, compObs c2X c2W false i j / ∑ k, compObs c2X c2W false i k) = 1) ∧
    probSumVal c2X c2W = 2 ∧ npRound2 (probSumVal c2X c2W) ≠ 1 := by
  have hval : probSumVal c2X c2W = 2 := by
    simp [probSumVal, c2_compObs_eq_one]
  refine ⟨fun i => by simp [c2_compObs_eq_one], hval, ?_⟩
  rw [hval, npRound2_two]
  norm_num

/-- Claim C7: each row of the normalized observation-probability matrix sums
to exactly 1 (the source divides each row of `exp(x @ w)` by its row sum);
the class count must be positive for a row to be a distribution. -/
theorem compObs_normalized_rows_sum_one {n m c : ℕ} (x : Matrix (Fin n) (Fin m) ℝ)
    (w : Matrix (Fin m) (Fin c) ℝ) (hc : 0 < c) (i : Fin n) :
    ∑ j, compObs x w true i j = 1 := by
  have hpos : 0 < ∑ k, Real.exp ((x * w) i k) :=
    Finset.sum_pos (fun k _ => Real.exp_pos _) ⟨⟨0, hc⟩, Finset.mem_univ _⟩
  simp only [compObs, if_true]
  rw [← Finset.sum_div]
  exact div_self (ne_of_gt hpos)

/-- Witness for claim C7 at a concrete 1x1 instance. -/
theorem compObs_normalized_rows_sum_one_witness :
    0 < 1 ∧ ∑ j, compObs c2W c2W true 0 j = 1 :=
  ⟨Nat.one_pos, compObs_normalized_rows_sum_one c2W c2W Nat.one_pos 0⟩

/-- Claim C8: with `normalize = false`, `compObs` returns exactly the
elementwise exponential of the score matrix `x ⬝ w`, a matrix of positive
unnormalized weights. -/
theorem compObs_unnormalized_eq_exp {n m c : ℕ} (x : Matrix (Fin n) (Fin m) ℝ)
    (w : Matrix (Fin m) (Fin c) ℝ) (i : Fin n) (j : Fin c) :
    compObs x w false i j = Real.exp (∑ k, x i k * w k j) ∧
    0 < compObs x w false i j := by
  constructor
  · simp [compObs, Matrix.mul_apply]
  · simpa [compObs] using Real.exp_pos ((x * w) i j)

/-- A 1x1 design matrix with the single entry 1. -/
noncomputable def c3X : Matrix (Fin 1) (Fin 1) ℝ := fun _ _ => 1

/-- A 1x2 all-zero initial weight matrix. -/
noncomputable def c3Winit : Matrix (Fin 1) (Fin 2) ℝ := fun _ _ => 0

/-- A flat optimizer output (one free parameter) with value 1. -/
noncomputable def c3V : Fin (1 * (2 - 1)) → ℝ := fun _ => 1

/-- A 1x2 one-hot observation matrix selecting class 0. -/
noncomputable def c6Y : Matrix (Fin 1) (Fin 2) ℝ := fun _ j => if j = 0 then 1 else 0

/-- Claim C3: the probability matrix that `fit` caches on line 117 is
`compObs` at the *initial* weights — here, at an instance where the
optimizer output differs from the initial weights, it differs from
`compObs` at the reconstructed optimized weights `w_new`. -/
theorem fit_phi_uses_initial_weights :
    fitPhi c3X c3Winit = compObs c3X c3Winit true ∧
    fitPhi c3X c3Winit ≠ compObs c3X (w_new c3V) true := by
  refine ⟨rfl, fun hEq => ?_⟩
  have h := congrFun (congrFun hEq 0) 1
  have hL : fitPhi c3X c3Winit 0 1 = 1 / 2 := by
    simp [fitPhi, compObs, Matrix.mul_apply, c3X, c3Winit, Fin.sum_univ_two]
  have hR : compObs c3X (w_new c3V) true 0 1 = Real.exp 1 / (1 + Real.exp 1) := by
    simp [compObs, Matrix.mul_apply, c3X, c3V, w_new, Fin.sum_univ_two]
  rw [hL, hR] at h
  have hexp : (2 : ℝ) ≤ Real.exp 1 := by
    have := Real.add_one_le_exp (1 : ℝ); linarith
  have hpos : (0 : ℝ) < 1 + Real.exp 1 := by linarith
  rw [div_eq_div_iff (by norm_num) (ne_of_gt hpos)] at h
  linarith

/-- Claim C5: the weight matrix reconstructed on line 114 of `fit` has
column 0 equal to zero in every row, whatever vector the minimizer
returned. -/
theorem fit_wnew_first_column_zero (m c : ℕ) (optx : Fin (m * (c + 1 - 1)) → ℝ)
    (i : Fin m) : w_new optx i (0 : Fin (c + 1)) = 0 := by
  simp [w_new]

/-- Claim C6: the Hessian computation of `fit` differentiates
`opt_log = neglogli(x, ., y)` at the optimized weights, and every
evaluation of that objective raises `TypeError` (misspelled keyword), so
the standard-error vector is never produced. -/
theorem fit_hessian_objective_raises :
    neglogli c3X (w_new c3V) c6Y = Except.error normailizeKwError := rfl

/-- The design matrix produced by a `bias = true` run of `generate_data`
with n = 1, m = 2, c = 2, all raw draws zero. -/
noncomputable def c4X : Matrix (Fin 1) (Fin 3) ℤ := biasX (gdRawX (0, 1) (fun _ _ => 0))

/-- The weight matrix of the same `generate_data` run. -/
noncomputable def c4W : Matrix (Fin 3) (Fin 2) ℝ :=
  biasW (0, 1) (fun _ => 0) (gdRawW (0, 1) (fun _ _ => 0))

/-- The observation matrix of the same `generate_data` run. -/
noncomputable def c4Y : Matrix (Fin 1) (Fin 2) ℝ :=
  gdY (gdObs (by norm_num) (gdPhi c4X c4W) (fun _ => 0))

/-- Claim C4: a `bias = true` run of `generate_data` returns the triple
`(c4X, c4W, c4Y)` (dimensions grown by one feature and mutually
consistent), but feeding that triple to `neglogli` raises `TypeError`
rather than succeeding — the generated data is not usable "without
error". -/
theorem generate_data_output_raises_in_neglogli :
    (generate_data 1 2 2 (0, 1) (0, 1) true (fun _ _ => 0) (fun _ _ => 0)
        (fun _ => 0) (fun _ => 0) = Except.ok (c4X, c4W, c4Y)) ∧
    neglogli (c4X.map fun a => (a : ℝ)) c4W c4Y = Except.error normailizeKwError :=
  ⟨rfl, rfl⟩

/-- One-hot structure of the matrix built on lines 170-171 of
`generate_data`: row `i` is 1 at column `obs i` and 0 elsewhere. -/
theorem gdY_one_hot {n c : ℕ} (obs : Fin n → Fin c) (i : Fin n) :
    ∃ j0 : Fin c, gdY obs i j0 = 1 ∧ ∀ j : Fin c, j ≠ j0 → gdY obs i j = 0 :=
  ⟨obs i, by simp [gdY], fun j hj => by simp [gdY, hj]⟩

/-- Claim C9: whenever `generate_data` returns a triple, each row of the
returned observation matrix `y` has exactly one entry equal to 1 (at the
sampled class index) and all other entries 0. -/
theorem generate_data_y_one_hot {n m c : ℕ} (wdist : ℝ × ℝ) (xdist : ℤ × ℤ)
    (bias : Bool) (uw : Fin m → Fin (c - 1) → ℝ) (ux : Fin n → Fin m → ℤ)
    (ub : Fin (c - 1) → ℝ) (ur : Fin n → ℝ)
    {x : Matrix (Fin n) (Fin (bif bias then m + 1 else m)) ℤ}
    {w : Matrix (Fin (bif bias then m + 1 else m)) (Fin c) ℝ}
    {y : Matrix (Fin n) (Fin c) ℝ}
    (hok : generate_data n m c wdist xdist bias uw ux ub ur = Except.ok (x, w, y))
    (i : Fin n) :
    ∃ j0 : Fin c, y i j0 = 1 ∧ ∀ j : Fin c, j ≠ j0 → y i j = 0 := by
  cases bias with
  | false =>
    simp only [generate_data] at hok
    split at hok
    case isFalse => exact absurd hok (by simp)
    case isTrue hc =>
      split at hok
      case isFalse => exact absurd hok (by simp)
      case isTrue hx =>
        simp only [Except.ok.injEq, Prod.mk.injEq] at hok
        obtain ⟨hx', hw', hy'⟩ := hok
        subst hy'
        exact gdY_one_hot _ i
  | true =>
    simp only [generate_data] at hok
    split at hok
    case isFalse => exact absurd hok (by simp)
    case isTrue hc =>
      split at hok
      case isFalse => exact absurd hok (by simp)
      case isTrue hx =>
        split at hok
        case isFalse => exact absurd hok (by simp)
        case isTrue hm =>
          simp only [Except.ok.injEq, Prod.mk.injEq] at hok
          obtain ⟨hx', hw', hy'⟩ := hok
          subst hy'
          exact gdY_one_hot _ i

/-- The design matrix of a `bias = false` run with n = m = c = 1. -/
noncomputable def exX : Matrix (Fin 1) (Fin 1) ℤ := gdRawX (0, 1) (fun _ _ => 0)

/-- The weight matrix of the same run. -/
noncomputable def exW : Matrix (Fin 1) (Fin 1) ℝ := gdRawW (0, 1) (fun _ _ => 0)

/-- The observation matrix of the same run. -/
noncomputable def exY : Matrix (Fin 1) (Fin 1) ℝ :=
  gdY (gdObs Nat.one_pos (gdPhi exX exW) (fun _ => 0))

/-- Witness for claim C9 at a concrete run of `generate_data`. -/
theorem generate_data_y_one_hot_witness :
    (generate_data 1 1 1 (0, 1) (0, 1) false (fun _ _ => 0) (fun _ _ => 0)
        (fun _ => 0) (fun _ => 0) = Except.ok (exX, exW, exY)) ∧
    ∃ j0 : Fin 1, exY 0 j0 = 1 ∧ ∀ j : Fin 1, j ≠ j0 → exY 0 j = 0 :=
  ⟨rfl,
    @generate_data_y_one_hot 1 1 1 (0, 1) (0, 1) false (fun _ _ => 0) (fun _ _ => 0)
      (fun _ => 0) (fun _ => 0) exX exW exY rfl 0⟩

/-- With `low < high`, the modelled `np.random.randint` value lies in the
half-open integer range `[low, high - 1]`. -/
theorem randintNp_mem {low high : ℤ} (u : ℤ) (h : low < high) :
    low ≤ randintNp low high u ∧ randintNp low high u ≤ high - 1 := by
  have hd : (0 : ℤ) < high - low := by omega
  have h1 : 0 ≤ u % (high - low) := Int.emod_nonneg u (by omega)
  have h2 : u % (high - low) < high - low := Int.emod_lt_of_pos u hd
  unfold randintNp
  omega

/-- With `low < high` and a raw draw in `[0, 1)`, the modelled
`np.random.uniform` value lies in `[low, high)`. -/
theorem uniformNp_mem {low high u : ℝ} (h : low < high) (hu0 : 0 ≤ u)
    (hu1 : u < 1) : low ≤ uniformNp low high u ∧ uniformNp low high u < high := by
  have hd : (0 : ℝ) < high - low := by linarith
  constructor
  · have := mul_nonneg hd.le hu0
    unfold uniformNp; linarith
  · have h2 : (high - low) * u < (high - low) * 1 := mul_lt_mul_of_pos_left hu1 hd
    unfold uniformNp; linarith

/-- Every free-column entry of the sampled weight matrix is a uniform draw
in `[wdist.1, wdist.2)` when the bounds are nondegenerate. -/
theorem gdRawW_mem {m c : ℕ} {wdist : ℝ × ℝ} {uw : Fin m → Fin (c - 1) → ℝ}
    (huw : ∀ i j, 0 ≤ uw i j ∧ uw i j < 1) (hw : wdist.1 < wdist.2)
    (i : Fin m) (j : Fin c) (hj : j.val ≠ 0) :
    wdist.1 ≤ gdRawW wdist uw i j ∧ gdRawW wdist uw i j < wdist.2 := by
  unfold gdRawW
  rw [dif_neg hj]
  exact uniformNp_mem hw (huw _ _).1 (huw _ _).2

/-- Free-column entries of the bias-augmented weight matrix stay in
`[wdist.1, wdist.2)`: row 0 holds fresh uniform draws, the other rows come
from the underlying sampled matrix. -/
theorem biasW_mem {m c : ℕ} {wdist : ℝ × ℝ} {ub : Fin (c - 1) → ℝ}
    {w : Matrix (Fin m) (Fin c) ℝ} (hub : ∀ j, 0 ≤ ub j ∧ ub j < 1)
    (hw : wdist.1 < wdist.2)
    (hmem : ∀ i (j : Fin c), j.val ≠ 0 → wdist.1 ≤ w i j ∧ w i j < wdist.2)
    (i : Fin (m + 1)) (j : Fin c) (hj : j.val ≠ 0) :
    wdist.1 ≤ biasW wdist ub w i j ∧ biasW wdist ub w i j < wdist.2 := by
  unfold biasW
  by_cases hi : i.val = 0
  · rw [dif_pos hi, dif_neg hj]
    exact uniformNp_mem hw (hub _).1 (hub _).2
  · rw [dif_neg hi]
    exact hmem _ _ hj

/-- The weight matrix of a `bias = false` run of `generate_data` with the
degenerate bounds `wdist = (0, 0)`. -/
noncomputable def cxW : Matrix (Fin 1) (Fin 2) ℝ := gdRawW (0, 0) (fun _ _ => 0)

/-- The design matrix of the same run. -/
noncomputable def cxX : Matrix (Fin 1) (Fin 1) ℤ := gdRawX (0, 1) (fun _ _ => 0)

/-- The observation matrix of the same run. -/
noncomputable def cxY : Matrix (Fin 1) (Fin 2) ℝ :=
  gdY (gdObs (by norm_num) (gdPhi cxX cxW) (fun _ => 0))

/-- The design matrix of a `bias = true` run of `generate_data` with
`xdist = (5, 7)`. -/
noncomputable def cx2X : Matrix (Fin 1) (Fin 3) ℤ := biasX (gdRawX (5, 7) (fun _ _ => 0))

/-- The weight matrix of the same run. -/
noncomputable def cx2W : Matrix (Fin 3) (Fin 1) ℝ :=
  biasW (0, 1) (fun _ => 0) (gdRawW (0, 1) (fun _ _ => 0))

/-- The observation matrix of the same run. -/
noncomputable def cx2Y : Matrix (Fin 1) (Fin 1) ℝ :=
  gdY (gdObs Nat.one_pos (gdPhi cx2X cx2W) (fun _ => 0))

/-- Claim C10, counterexample: (a) with the degenerate bounds
`wdist = (0, 0)` a run of `generate_data` returns normally, yet the sampled
weight entry is `0`, which does not lie in the empty half-open interval
`[0, 0)`; (b) with `bias = true` and `xdist = (5, 7)` the returned design
matrix contains the bias entry `1`, which does not lie in `[5, 7 - 1]`.  So
not every run and every choice of bounds keeps all returned entries in the
claimed half-open ranges. -/
theorem generate_data_halfopen_counterexample :
    ((generate_data 1 1 2 (0, 0) (0, 1) false (fun _ _ => 0) (fun _ _ => 0)
        (fun _ => 0) (fun _ => 0) = Except.ok (cxX, cxW, cxY)) ∧
      cxW 0 1 = 0 ∧ ¬((0 : ℝ) ≤ cxW 0 1 ∧ cxW 0 1 < 0)) ∧
    ((generate_data 1 2 1 (0, 1) (5, 7) true (fun _ _ => 0) (fun _ _ => 0)
        (fun _ => 0) (fun _ => 0) = Except.ok (cx2X, cx2W, cx2Y)) ∧
      cx2X 0 0 = 1 ∧ ¬((5 : ℤ) ≤ cx2X 0 0 ∧ cx2X 0 0 ≤ 7 - 1)) := by
  have hW : cxW 0 1 = 0 := by simp [cxW, gdRawW, uniformNp]
  have hX : cx2X 0 0 = 1 := by simp [cx2X, biasX]
  refine ⟨⟨rfl, hW, ?_⟩, rfl, hX, ?_⟩
  · rw [hW]; intro h; exact lt_irrefl 0 h.2
  · rw [hX]; intro h; omega

/-- Claim C10 (amended): whenever `generate_data` returns, the *sampled*
entries of the design matrix (all entries when `bias` is false, the entries
outside the prepended ones column when `bias` is true) lie in
`[xdist.1, xdist.2 - 1]`, and — provided `wdist.1 < wdist.2` — every
free-column weight entry lies in the half-open interval
`[wdist.1, wdist.2)`. -/
theorem generate_data_sample_ranges {n m c : ℕ} (wdist : ℝ × ℝ) (xdist : ℤ × ℤ)
    (bias : Bool) (uw : Fin m → Fin (c - 1) → ℝ) (ux : Fin n → Fin m → ℤ)
    (ub : Fin (c - 1) → ℝ) (ur : Fin n → ℝ)
    (huw : ∀ i j, 0 ≤ uw i j ∧ uw i j < 1) (hub : ∀ j, 0 ≤ ub j ∧ ub j < 1)
    (hw : wdist.1 < wdist.2)
    {x : Matrix (Fin n) (Fin (bif bias then m + 1 else m)) ℤ}
    {w : Matrix (Fin (bif bias then m + 1 else m)) (Fin c) ℝ}
    {y : Matrix (Fin n) (Fin c) ℝ}
    (hok : generate_data n m c wdist xdist bias uw ux ub ur = Except.ok (x, w, y)) :
    (∀ (i : Fin n) (j : Fin (bif bias then m + 1 else m)),
      (bias = true → j.val ≠ 0) → xdist.1 ≤ x i j ∧ x i j ≤ xdist.2 - 1) ∧
    (∀ (i : Fin (bif bias then m + 1 else m)) (j : Fin c), j.val ≠ 0 →
      wdist.1 ≤ w i j ∧ w i j < wdist.2) := by
  cases bias with
  | false =>
    simp only [generate_data] at hok
    split at hok
    case isFalse => exact absurd hok (by simp)
    case isTrue hc =>
      split at hok
      case isFalse => exact absurd hok (by simp)
      case isTrue hx =>
        simp only [Except.ok.injEq, Prod.mk.injEq] at hok
        obtain ⟨hx', hw', _⟩ := hok
        subst hx'; subst hw'
        refine ⟨fun i j _ => randintNp_mem _ hx, fun i j hj => gdRawW_mem huw hw i j hj⟩
  | true =>
    simp only [generate_data] at hok
    split at hok
    case isFalse => exact absurd hok (by simp)
    case isTrue hc =>
      split at hok
      case isFalse => exact absurd hok (by simp)
      case isTrue hx =>
        split at hok
        case isFalse => exact absurd hok (by simp)
        case isTrue hm =>
          simp only [Except.ok.injEq, Prod.mk.injEq] at hok
          obtain ⟨hx', hw', _⟩ := hok
          subst hx'; subst hw'
          constructor
          · intro i j hcond
            have hj := hcond rfl
            unfold biasX
            rw [dif_neg hj]
            exact randintNp_mem _ hx
          · exact fun i j hj =>
              biasW_mem hub hw (fun i j hj => gdRawW_mem huw hw i j hj) i j hj

/-- The design matrix of a concrete nondegenerate `bias = false` run. -/
noncomputable def wtX : Matrix (Fin 1) (Fin 1) ℤ := gdRawX (0, 2) (fun _ _ => 3)

/-- The weight matrix of the same run (raw uniform draw 1/2). -/
noncomputable def wtW : Matrix (Fin 1) (Fin 2) ℝ := gdRawW (0, 1) (fun _ _ => 1 / 2)

/-- The observation matrix of the same run. -/
noncomputable def wtY : Matrix (Fin 1) (Fin 2) ℝ :=
  gdY (gdObs (by norm_num) (gdPhi wtX wtW) (fun _ => 0))

/-- Witness for the amended claim C10 at a concrete run with
`xdist = (0, 2)`, `wdist = (0, 1)`, raw draws `3` and `1/2`. -/
theorem generate_data_sample_ranges_witness :
    ((0 : ℝ) < 1) ∧ ((0 : ℤ) ≤ wtX 0 0 ∧ wtX 0 0 ≤ 2 - 1) ∧
    ((0 : ℝ) ≤ wtW 0 1 ∧ wtW 0 1 < 1) := by
  have h := @generate_data_sample_ranges 1 1 2 (0, 1) (0, 2) false
    (fun _ _ => 1 / 2) (fun _ _ => 3) (fun _ => 0) (fun _ => 0)
    (fun _ _ => by norm_num) (fun _ => by norm_num) (by norm_num)
    wtX wtW wtY rfl
  exact ⟨by norm_num, h.1 0 ⟨0, by decide⟩ (fun hf => absurd hf Bool.false_ne_true),
    h.2 ⟨0, by decide⟩ 1 (by decide)⟩

end GLM
